import Mathlib

/-!
Verification of the twoway-messaging-demo specification against a shallow
embedding of its Go source.

Conventions of the embedding:
* A byte stream is a finite `List Nat` (each element a byte value).
  `io.ReadFull` over such a stream errors exactly when fewer bytes remain
  than requested, so a declared length that exceeds the remaining stream
  surfaces as a short read, as in the Go code.
* Fallible Go functions (returning `(T, error)`) become `Option`-valued
  functions; a Go runtime panic is modelled with `Except GoPanic`.
* Go `uint32` / `uint64` casts are modelled with `% 2^32` / `% 2^64`.
* External opaque types are modelled by their observable contracts: a
  `multiaddr.Multiaddr` is identified with its binary form (`addr.Bytes()`),
  for which the library guarantees `NewMultiaddrBytes (a.Bytes()) = a`;
  the Ed25519 / HPKE / SHA-256 primitives are abstracted as parameters
  (`CryptoPrims`, `edVerify`) since the spec treats them as external.
-/

set_option maxRecDepth 16384

namespace Tmd

/-! ## Frame codec (src/wire-format.go, src/unnamed/part_003) -/

/-- Big-endian `u32` encoding, as produced by `binary.BigEndian.PutUint32`
after Go's `uint32(...)` cast (hence the `% 256` digit extraction, which
realises the `% 2^32` wrap-around). -/
def u32be (n : Nat) : List Nat :=
  [n / 2 ^ 24 % 256, n / 2 ^ 16 % 256, n / 2 ^ 8 % 256, n % 256]

/-- Big-endian `u32` decoding of a 4-byte header (`binary.BigEndian.Uint32`). -/
def beU32 : List Nat → Nat
  | [b0, b1, b2, b3] => ((b0 * 256 + b1) * 256 + b2) * 256 + b3
  | _ => 0

/-- Big-endian `u64` encoding (`binary.BigEndian.PutUint64` on a `uint64`). -/
def u64be (n : Nat) : List Nat :=
  [n / 2 ^ 56 % 256, n / 2 ^ 48 % 256, n / 2 ^ 40 % 256, n / 2 ^ 32 % 256,
   n / 2 ^ 24 % 256, n / 2 ^ 16 % 256, n / 2 ^ 8 % 256, n % 256]

/-- Big-endian `u64` decoding of an 8-byte slice (`binary.BigEndian.Uint64`). -/
def beU64 : List Nat → Nat
  | [b0, b1, b2, b3, b4, b5, b6, b7] =>
    ((((((b0 * 256 + b1) * 256 + b2) * 256 + b3) * 256 + b4) * 256 + b5) * 256
        + b6) * 256 + b7
  | _ => 0

/-- `io.ReadFull` over a finite stream: returns the first `n` bytes and the
rest, or errors when fewer than `n` bytes remain. -/
def readFull (n : Nat) (s : List Nat) : Option (List Nat × List Nat) :=
  if n ≤ s.length then some (s.take n, s.drop n) else none

/-- `writeMsg`: 4-byte big-endian total length (`uint32(1+len(payload))`),
one type byte, then the payload. -/
def writeMsg (typ : Nat) (payload : List Nat) : List Nat :=
  u32be (1 + payload.length) ++ [typ] ++ payload

/-- `readMsg`: reads the 4-byte length header, rejects a declared total
length `< 1`, then reads the type byte and exactly `total - 1` payload
bytes. Mirrors `readMsg` of src/wire-format.go (identical to `ReadMsg` of
src/unnamed/part_003). -/
def readMsg (s : List Nat) : Option (Nat × List Nat × List Nat) :=
  match readFull 4 s with
  | none => none
  | some (hdr, s1) =>
    let n := beU32 hdr
    if n < 1 then none
    else
      match readFull 1 s1 with
      | none => none
      | some (tb, s2) =>
        match readFull (n - 1) s2 with
        | none => none
        | some (payload, s3) => some (tb.headD 0, payload, s3)

/-- `writeBlob`: 4-byte big-endian length then the raw bytes. -/
def writeBlob (b : List Nat) : List Nat :=
  u32be b.length ++ b

/-- `readBlob`: reads the 4-byte length header then exactly that many
bytes. -/
def readBlob (s : List Nat) : Option (List Nat × List Nat) :=
  match readFull 4 s with
  | none => none
  | some (hdr, s1) =>
    match readFull (beU32 hdr) s1 with
    | none => none
    | some (b, s2) => some (b, s2)

/-- The length a frame header declares: the big-endian `u32` of the first
four stream bytes. -/
def declLen (s : List Nat) : Nat := beU32 (s.take 4)

theorem beU32_u32be (n : Nat) : beU32 (u32be n) = n % 2 ^ 32 := by
  simp only [u32be, beU32]
  omega

theorem u32be_length (n : Nat) : (u32be n).length = 4 := rfl

theorem beU64_u64be (n : Nat) : beU64 (u64be n) = n % 2 ^ 64 := by
  simp only [u64be, beU64]
  omega

theorem u64be_length (n : Nat) : (u64be n).length = 8 := rfl

theorem readFull_append (l rest : List Nat) :
    readFull l.length (l ++ rest) = some (l, rest) := by
  simp [readFull, List.take_left, List.drop_left]

theorem readBlob_writeBlob (b rest : List Nat) (h : b.length < 2 ^ 32) :
    readBlob (writeBlob b ++ rest) = some (b, rest) := by
  have h4 : readFull 4 (writeBlob b ++ rest)
      = some (u32be b.length, b ++ rest) := by
    have := readFull_append (u32be b.length) (b ++ rest)
    simpa [writeBlob, u32be_length] using this
  have hmod : beU32 (u32be b.length) = b.length := by
    rw [beU32_u32be, Nat.mod_eq_of_lt h]
  simp [readBlob, h4, hmod, readFull_append]

theorem readBlob_writeBlob_self (b : List Nat) (h : b.length < 2 ^ 32) :
    readBlob (writeBlob b) = some (b, []) := by
  simpa using readBlob_writeBlob b [] h

theorem readMsg_writeMsg (t : Nat) (p rest : List Nat)
    (h : 1 + p.length < 2 ^ 32) :
    readMsg (writeMsg t p ++ rest) = some (t, p, rest) := by
  have h4 : readFull 4 (writeMsg t p ++ rest)
      = some (u32be (1 + p.length), [t] ++ (p ++ rest)) := by
    have := readFull_append (u32be (1 + p.length)) ([t] ++ (p ++ rest))
    simpa [writeMsg, u32be_length] using this
  have h1 : readFull 1 ([t] ++ (p ++ rest)) = some ([t], p ++ rest) := by
    simpa using readFull_append [t] (p ++ rest)
  have hmod : beU32 (u32be (1 + p.length)) = 1 + p.length := by
    rw [beU32_u32be, Nat.mod_eq_of_lt h]
  have h1' : readFull 1 (t :: (p ++ rest)) = some ([t], p ++ rest) := by
    simpa using h1
  simp [readMsg, h4, hmod, h1', readFull_append]

/-! ## Session-layer wire (src/wire-format.go) -/

/-- Session-wire tag values. -/
def msgChallenge : Nat := 1
def msgHello : Nat := 2
def msgRequest : Nat := 3
def msgResponse : Nat := 4
def msgGoodbye : Nat := 5

/-- `KeyIDSize`, the size of key fingerprints in bytes. -/
def KeyIDSize : Nat := 8

/-- The `Hello` message of src/wire-format.go (and src/unnamed/part_006):
sender nickname bytes, 8-byte key fingerprint, Ed25519 public key, HPKE
public key, signature. -/
structure Hello where
  senderId : List Nat
  senderKeyId : List Nat
  senderEdPub : List Nat
  senderHPKEPub : List Nat
  signature : List Nat
deriving DecidableEq, Repr

def encodeHello (h : Hello) : List Nat :=
  writeBlob h.senderId ++ writeBlob h.senderKeyId ++ writeBlob h.senderEdPub
    ++ writeBlob h.senderHPKEPub ++ writeBlob h.signature

def decodeHello (p : List Nat) : Option Hello :=
  match readBlob p with
  | none => none
  | some (id, r1) =>
    match readBlob r1 with
    | none => none
    | some (keyId, r2) =>
      if keyId.length ≠ KeyIDSize then none
      else
        match readBlob r2 with
        | none => none
        | some (edPub, r3) =>
          match readBlob r3 with
          | none => none
          | some (hpkePub, r4) =>
            match readBlob r4 with
            | none => none
            | some (sig, _) => some ⟨id, keyId, edPub, hpkePub, sig⟩

/-- The `Request` message: u64 correlation id, 8-byte recipient key
fingerprint, encapsulated key, media type, ciphertext. -/
structure Request where
  requestId : Nat
  recipientKeyId : List Nat
  encapKey : List Nat
  mediaType : List Nat
  ciphertext : List Nat
deriving DecidableEq, Repr

def encodeRequest (req : Request) : List Nat :=
  writeBlob (u64be req.requestId) ++ writeBlob req.recipientKeyId
    ++ writeBlob req.encapKey ++ writeBlob req.mediaType
    ++ writeBlob req.ciphertext

def decodeRequest (p : List Nat) : Option Request :=
  match readBlob p with
  | none => none
  | some (idb, r1) =>
    if idb.length ≠ 8 then none
    else
      match readBlob r1 with
      | none => none
      | some (keyId, r2) =>
        if keyId.length ≠ KeyIDSize then none
        else
          match readBlob r2 with
          | none => none
          | some (encap, r3) =>
            match readBlob r3 with
            | none => none
            | some (mt, r4) =>
              match readBlob r4 with
              | none => none
              | some (ct, _) => some ⟨beU64 idb, keyId, encap, mt, ct⟩

/-- The `Response` message: u64 correlation id, media type, ciphertext. -/
structure Response where
  requestId : Nat
  mediaType : List Nat
  ciphertext : List Nat
deriving DecidableEq, Repr

def encodeResponse (resp : Response) : List Nat :=
  writeBlob (u64be resp.requestId) ++ writeBlob resp.mediaType
    ++ writeBlob resp.ciphertext

def decodeResponse (p : List Nat) : Option Response :=
  match readBlob p with
  | none => none
  | some (idb, r1) =>
    if idb.length ≠ 8 then none
    else
      match readBlob r1 with
      | none => none
      | some (mt, r2) =>
        match readBlob r2 with
        | none => none
        | some (ct, _) => some ⟨beU64 idb, mt, ct⟩

/-- The `Goodbye` message: just the sender nickname as one blob. -/
structure Goodbye where
  senderId : List Nat
deriving DecidableEq, Repr

def encodeGoodbye (g : Goodbye) : List Nat :=
  writeBlob g.senderId

def decodeGoodbye (p : List Nat) : Option Goodbye :=
  match readBlob p with
  | none => none
  | some (id, _) => some ⟨id⟩

/-! ## Discovery wire (src/unnamed/part_003, package `node`) -/

/-- Discovery-wire tag values. -/
def MsgRegister : Nat := 1
def MsgRegisterOK : Nat := 2
def MsgRegisterFail : Nat := 3
def MsgPeerList : Nat := 4
def MsgPeerJoined : Nat := 5
def MsgPeerLeft : Nat := 6

/-- `Register` exactly as declared in src/unnamed/part_003: nickname and
token strings (as their byte sequences), the HPKE public key, and a
single-byte `KeyID`. -/
structure Register where
  nickname : List Nat
  token : List Nat
  hpkePub : List Nat
  keyId : Nat
deriving DecidableEq, Repr

/-- `EncodeRegister` of src/unnamed/part_003: three length-prefixed blobs
followed by the `KeyID` appended as one raw byte (`b.WriteByte(r.KeyID)`). -/
def EncodeRegister (r : Register) : List Nat :=
  writeBlob r.nickname ++ writeBlob r.token ++ writeBlob r.hpkePub
    ++ [r.keyId]

/-- `DecodeRegister` of src/unnamed/part_003: two strings, a blob, then a
single byte read with `ReadByte`. -/
def DecodeRegister (data : List Nat) : Option Register :=
  match readBlob data with
  | none => none
  | some (nickname, r1) =>
    match readBlob r1 with
    | none => none
    | some (token, r2) =>
      match readBlob r2 with
      | none => none
      | some (hpkePub, r3) =>
        match r3 with
        | [] => none
        | keyId :: _ => some ⟨nickname, token, hpkePub, keyId⟩

/-- `RegisterOK`: raw bytes are the node's peer identifier. -/
structure RegisterOK where
  peerId : List Nat
deriving DecidableEq, Repr

def EncodeRegisterOK (r : RegisterOK) : List Nat := r.peerId

def DecodeRegisterOK (data : List Nat) : RegisterOK := ⟨data⟩

/-- `RegisterFail`: raw bytes are the human-readable reason. -/
structure RegisterFail where
  reason : List Nat
deriving DecidableEq, Repr

def EncodeRegisterFail (r : RegisterFail) : List Nat := r.reason

def DecodeRegisterFail (data : List Nat) : RegisterFail := ⟨data⟩

/-- `PeerJoined` of src/unnamed/part_003: nickname, transport peer id,
address list, HPKE public key, and the single-byte `KeyID`. A multiaddr is
identified with its binary form (`addr.Bytes()`). -/
structure PeerJoined where
  nickname : List Nat
  peerId : List Nat
  addrs : List (List Nat)
  hpkePub : List Nat
  keyId : Nat
deriving DecidableEq, Repr

/-- Concatenation of encoded fragments (`bytes.Buffer` accumulation). -/
def catBytes (ls : List (List Nat)) : List Nat := ls.foldr (· ++ ·) []

/-- `EncodePeerJoined`: two blobs, `u32` address count, one blob per
address, the HPKE blob, then the raw `KeyID` byte. -/
def EncodePeerJoined (p : PeerJoined) : List Nat :=
  writeBlob p.nickname ++ writeBlob p.peerId ++ u32be p.addrs.length
    ++ catBytes (p.addrs.map writeBlob) ++ writeBlob p.hpkePub ++ [p.keyId]

/-- The address-list decoding loop of `DecodePeerJoined`; parsing
`NewMultiaddrBytes (a.Bytes())` is the identity by the multiaddr library
contract. -/
def decodeAddrs : Nat → List Nat → Option (List (List Nat) × List Nat)
  | 0, s => some ([], s)
  | n + 1, s =>
    match readBlob s with
    | none => none
    | some (a, s1) =>
      match decodeAddrs n s1 with
      | none => none
      | some (rest, s2) => some (a :: rest, s2)

def DecodePeerJoined (data : List Nat) : Option PeerJoined :=
  match readBlob data with
  | none => none
  | some (nickname, r1) =>
    match readBlob r1 with
    | none => none
    | some (peerId, r2) =>
      match readFull 4 r2 with
      | none => none
      | some (cnt, r3) =>
        match decodeAddrs (beU32 cnt) r3 with
        | none => none
        | some (addrs, r4) =>
          match readBlob r4 with
          | none => none
          | some (hpkePub, r5) =>
            match r5 with
            | [] => none
            | keyId :: _ => some ⟨nickname, peerId, addrs, hpkePub, keyId⟩

/-- `PeerLeft`: raw bytes are the nickname. -/
structure PeerLeft where
  nickname : List Nat
deriving DecidableEq, Repr

def EncodePeerLeft (p : PeerLeft) : List Nat := p.nickname

def DecodePeerLeft (data : List Nat) : PeerLeft := ⟨data⟩

/-- `PeerList`: a `u32` count followed by one blob per peer, each blob
containing an encoded `PeerJoined` payload (`EncodePeerList` converts each
`PeerInfo` to a `PeerJoined` with identical fields, so the element type is
shared here). -/
structure PeerList where
  peers : List PeerJoined
deriving DecidableEq, Repr

def EncodePeerList (p : PeerList) : List Nat :=
  u32be p.peers.length ++ catBytes (p.peers.map (fun q => writeBlob (EncodePeerJoined q)))

/-- The per-entry decoding loop of `DecodePeerList`: each blob is decoded
with `DecodePeerJoined`. -/
def decodePeerEntries : Nat → List Nat → Option (List PeerJoined × List Nat)
  | 0, s => some ([], s)
  | n + 1, s =>
    match readBlob s with
    | none => none
    | some (entry, s1) =>
      match DecodePeerJoined entry with
      | none => none
      | some pj =>
        match decodePeerEntries n s1 with
        | none => none
        | some (rest, s2) => some (pj :: rest, s2)

def DecodePeerList (data : List Nat) : Option PeerList :=
  match readFull 4 data with
  | none => none
  | some (cnt, r1) =>
    match decodePeerEntries (beU32 cnt) r1 with
    | none => none
    | some (peers, _) => some ⟨peers⟩

/-! ## Structural validity (the `u32`/`u64` length prefixes and the fixed
fingerprint width are faithful exactly on these values) -/

/-- A blob whose `u32` length prefix does not wrap. -/
def blobOk (b : List Nat) : Prop := b.length < 2 ^ 32

def validHello (h : Hello) : Prop :=
  h.senderKeyId.length = KeyIDSize ∧ blobOk h.senderId ∧
    blobOk h.senderEdPub ∧ blobOk h.senderHPKEPub ∧ blobOk h.signature

def validRequest (r : Request) : Prop :=
  r.requestId < 2 ^ 64 ∧ r.recipientKeyId.length = KeyIDSize ∧
    blobOk r.encapKey ∧ blobOk r.mediaType ∧ blobOk r.ciphertext

def validResponse (r : Response) : Prop :=
  r.requestId < 2 ^ 64 ∧ blobOk r.mediaType ∧ blobOk r.ciphertext

def validGoodbye (g : Goodbye) : Prop := blobOk g.senderId

def validRegister (r : Register) : Prop :=
  blobOk r.nickname ∧ blobOk r.token ∧ blobOk r.hpkePub ∧ r.keyId < 256

def validPeerJoined (p : PeerJoined) : Prop :=
  blobOk p.nickname ∧ blobOk p.peerId ∧ p.addrs.length < 2 ^ 32 ∧
    (∀ a ∈ p.addrs, blobOk a) ∧ blobOk p.hpkePub ∧ p.keyId < 256

def validPeerList (l : PeerList) : Prop :=
  l.peers.length < 2 ^ 32 ∧
    ∀ q ∈ l.peers, validPeerJoined q ∧ blobOk (EncodePeerJoined q)

instance (b : List Nat) : Decidable (blobOk b) := by unfold blobOk; infer_instance
instance (h : Hello) : Decidable (validHello h) := by unfold validHello; infer_instance
instance (r : Request) : Decidable (validRequest r) := by unfold validRequest; infer_instance
instance (r : Response) : Decidable (validResponse r) := by unfold validResponse; infer_instance
instance (g : Goodbye) : Decidable (validGoodbye g) := by unfold validGoodbye; infer_instance
instance (r : Register) : Decidable (validRegister r) := by unfold validRegister; infer_instance
instance (p : PeerJoined) : Decidable (validPeerJoined p) := by
  unfold validPeerJoined; infer_instance
instance (l : PeerList) : Decidable (validPeerList l) := by
  unfold validPeerList validPeerJoined; infer_instance

/-! ## Round-trip lemmas -/

theorem decodeHello_encodeHello (h : Hello) (hv : validHello h) :
    decodeHello (encodeHello h) = some h := by
  obtain ⟨h1, h2, h3, h4, h5⟩ := hv
  have h1' : blobOk h.senderKeyId := by
    simp [blobOk, h1, KeyIDSize]
  have e : encodeHello h
      = writeBlob h.senderId ++ (writeBlob h.senderKeyId
        ++ (writeBlob h.senderEdPub ++ (writeBlob h.senderHPKEPub
          ++ (writeBlob h.signature ++ [])))) := by
    simp [encodeHello]
  rw [e]
  simp [decodeHello, readBlob_writeBlob _ _ h2, readBlob_writeBlob _ _ h1',
    readBlob_writeBlob _ _ h3, readBlob_writeBlob _ _ h4,
    readBlob_writeBlob_self _ h5, h1]

theorem decodeRequest_encodeRequest (r : Request) (hv : validRequest r) :
    decodeRequest (encodeRequest r) = some r := by
  obtain ⟨h1, h2, h3, h4, h5⟩ := hv
  have hid : blobOk (u64be r.requestId) := by simp [blobOk, u64be]
  have h2' : blobOk r.recipientKeyId := by simp [blobOk, h2, KeyIDSize]
  have e : encodeRequest r
      = writeBlob (u64be r.requestId) ++ (writeBlob r.recipientKeyId
        ++ (writeBlob r.encapKey ++ (writeBlob r.mediaType
          ++ (writeBlob r.ciphertext ++ [])))) := by
    simp [encodeRequest]
  rw [e]
  have hrid : beU64 (u64be r.requestId) = r.requestId := by
    rw [beU64_u64be, Nat.mod_eq_of_lt h1]
  simp [decodeRequest, readBlob_writeBlob _ _ hid, readBlob_writeBlob _ _ h2',
    readBlob_writeBlob _ _ h3, readBlob_writeBlob _ _ h4,
    readBlob_writeBlob_self _ h5, u64be_length, h2, hrid]

theorem decodeResponse_encodeResponse (r : Response) (hv : validResponse r) :
    decodeResponse (encodeResponse r) = some r := by
  obtain ⟨h1, h2, h3⟩ := hv
  have hid : blobOk (u64be r.requestId) := by simp [blobOk, u64be]
  have e : encodeResponse r
      = writeBlob (u64be r.requestId) ++ (writeBlob r.mediaType
        ++ (writeBlob r.ciphertext ++ [])) := by
    simp [encodeResponse]
  rw [e]
  have hrid : beU64 (u64be r.requestId) = r.requestId := by
    rw [beU64_u64be, Nat.mod_eq_of_lt h1]
  simp [decodeResponse, readBlob_writeBlob _ _ hid, readBlob_writeBlob _ _ h2,
    readBlob_writeBlob_self _ h3, u64be_length, hrid]

theorem decodeGoodbye_encodeGoodbye (g : Goodbye) (hv : validGoodbye g) :
    decodeGoodbye (encodeGoodbye g) = some g := by
  simp [decodeGoodbye, encodeGoodbye, readBlob_writeBlob_self _ hv]

theorem DecodeRegister_EncodeRegister (r : Register) (hv : validRegister r) :
    DecodeRegister (EncodeRegister r) = some r := by
  obtain ⟨h1, h2, h3, _⟩ := hv
  have e : EncodeRegister r
      = writeBlob r.nickname ++ (writeBlob r.token
        ++ (writeBlob r.hpkePub ++ [r.keyId])) := by
    simp [EncodeRegister]
  rw [e]
  simp [DecodeRegister, readBlob_writeBlob _ _ h1, readBlob_writeBlob _ _ h2,
    readBlob_writeBlob _ _ h3]

theorem decodeAddrs_catBytes (addrs : List (List Nat)) (rest : List Nat)
    (hv : ∀ a ∈ addrs, blobOk a) :
    decodeAddrs addrs.length (catBytes (addrs.map writeBlob) ++ rest)
      = some (addrs, rest) := by
  induction addrs with
  | nil => simp [decodeAddrs, catBytes]
  | cons a as ih =>
    have ha : blobOk a := hv a (List.mem_cons_self a as)
    have hs : ∀ x ∈ as, blobOk x := fun x hx => hv x (List.mem_cons_of_mem a hx)
    have e : catBytes ((a :: as).map writeBlob) ++ rest
        = writeBlob a ++ (catBytes (as.map writeBlob) ++ rest) := by
      simp [catBytes]
    simp only [List.length_cons, decodeAddrs, e, readBlob_writeBlob _ _ ha,
      ih hs]

theorem DecodePeerJoined_EncodePeerJoined (p : PeerJoined)
    (hv : validPeerJoined p) :
    DecodePeerJoined (EncodePeerJoined p) = some p := by
  obtain ⟨h1, h2, h3, h4, h5, _⟩ := hv
  have e : EncodePeerJoined p
      = writeBlob p.nickname ++ (writeBlob p.peerId
        ++ (u32be p.addrs.length ++ (catBytes (p.addrs.map writeBlob)
          ++ (writeBlob p.hpkePub ++ [p.keyId])))) := by
    simp [EncodePeerJoined]
  have hcnt : readFull 4 (u32be p.addrs.length
      ++ (catBytes (p.addrs.map writeBlob)
        ++ (writeBlob p.hpkePub ++ [p.keyId])))
      = some (u32be p.addrs.length,
          catBytes (p.addrs.map writeBlob)
            ++ (writeBlob p.hpkePub ++ [p.keyId])) := by
    have := readFull_append (u32be p.addrs.length)
      (catBytes (p.addrs.map writeBlob) ++ (writeBlob p.hpkePub ++ [p.keyId]))
    simpa [u32be_length] using this
  have hmod : beU32 (u32be p.addrs.length) = p.addrs.length := by
    rw [beU32_u32be, Nat.mod_eq_of_lt h3]
  have haddrs := decodeAddrs_catBytes p.addrs
    (writeBlob p.hpkePub ++ [p.keyId]) h4
  rw [e]
  simp [DecodePeerJoined, readBlob_writeBlob _ _ h1, readBlob_writeBlob _ _ h2,
    hcnt, hmod, haddrs, readBlob_writeBlob _ _ h5]

theorem decodePeerEntries_catBytes (ps : List PeerJoined) (rest : List Nat)
    (hv : ∀ q ∈ ps, validPeerJoined q ∧ blobOk (EncodePeerJoined q)) :
    decodePeerEntries ps.length
        (catBytes (ps.map (fun q => writeBlob (EncodePeerJoined q))) ++ rest)
      = some (ps, rest) := by
  induction ps with
  | nil => simp [decodePeerEntries, catBytes]
  | cons q qs ih =>
    obtain ⟨hq, hqe⟩ := hv q (List.mem_cons_self q qs)
    have hs : ∀ x ∈ qs, validPeerJoined x ∧ blobOk (EncodePeerJoined x) :=
      fun x hx => hv x (List.mem_cons_of_mem q hx)
    have e : catBytes ((q :: qs).map (fun x => writeBlob (EncodePeerJoined x)))
        ++ rest
        = writeBlob (EncodePeerJoined q)
          ++ (catBytes (qs.map (fun x => writeBlob (EncodePeerJoined x)))
            ++ rest) := by
      simp [catBytes]
    simp only [List.length_cons, decodePeerEntries, e,
      readBlob_writeBlob _ _ hqe, DecodePeerJoined_EncodePeerJoined q hq,
      ih hs]

theorem DecodePeerList_EncodePeerList (l : PeerList) (hv : validPeerList l) :
    DecodePeerList (EncodePeerList l) = some l := by
  obtain ⟨h1, h2⟩ := hv
  have hcnt : readFull 4 (u32be l.peers.length
      ++ catBytes (l.peers.map (fun q => writeBlob (EncodePeerJoined q))))
      = some (u32be l.peers.length,
          catBytes (l.peers.map (fun q => writeBlob (EncodePeerJoined q)))) := by
    have := readFull_append (u32be l.peers.length)
      (catBytes (l.peers.map (fun q => writeBlob (EncodePeerJoined q))))
    simpa [u32be_length] using this
  have hmod : beU32 (u32be l.peers.length) = l.peers.length := by
    rw [beU32_u32be, Nat.mod_eq_of_lt h1]
  have hent : decodePeerEntries l.peers.length
      (catBytes (l.peers.map (fun q => writeBlob (EncodePeerJoined q))))
      = some (l.peers, []) := by
    simpa using decodePeerEntries_catBytes l.peers [] h2
  simp [DecodePeerList, EncodePeerList, hcnt, hmod, hent]

/-! ## Exactness of the frame primitives -/

theorem readMsg_none_iff (s : List Nat) :
    readMsg s = none
      ↔ s.length < 4 ∨ declLen s < 1 ∨ s.length < 4 + declLen s := by
  simp only [readMsg, readFull, declLen]
  by_cases h4 : 4 ≤ s.length
  · by_cases hn1 : beU32 (s.take 4) < 1
    · simp only [if_pos h4, if_pos hn1]
      simp
      omega
    · by_cases h5 : 1 ≤ (s.drop 4).length
      · by_cases hrest : beU32 (s.take 4) - 1 ≤ ((s.drop 4).drop 1).length
        · simp only [if_pos h4, if_neg hn1, if_pos h5, if_pos hrest]
          simp only [List.length_drop] at *
          simp
          omega
        · simp only [if_pos h4, if_neg hn1, if_pos h5, if_neg hrest]
          simp only [List.length_drop] at *
          simp
          omega
      · simp only [if_pos h4, if_neg hn1, if_neg h5]
        simp only [List.length_drop] at *
        simp
        omega
  · simp only [if_neg h4]
    simp
    omega

theorem readMsg_some_exact (s : List Nat) (t : Nat) (p r : List Nat)
    (h : readMsg s = some (t, p, r)) :
    p.length + 1 = declLen s ∧ r = s.drop (4 + declLen s)
      ∧ 4 + declLen s ≤ s.length := by
  simp only [readMsg, readFull, declLen] at h ⊢
  by_cases h4 : 4 ≤ s.length
  · by_cases hn1 : beU32 (s.take 4) < 1
    · simp only [if_pos h4, if_pos hn1] at h
      exact Option.noConfusion h
    · by_cases h5 : 1 ≤ (s.drop 4).length
      · by_cases hrest : beU32 (s.take 4) - 1 ≤ ((s.drop 4).drop 1).length
        · simp only [if_pos h4, if_neg hn1, if_pos h5, if_pos hrest,
            Option.some.injEq, Prod.mk.injEq] at h
          obtain ⟨-, hp, hr⟩ := h
          simp only [List.length_drop] at hrest h5
          refine ⟨?_, ?_, by omega⟩
          · rw [← hp]
            simp only [List.length_take, List.length_drop, List.drop_drop]
            omega
          · rw [← hr]
            simp only [List.drop_drop]
            congr 1
            omega
        · simp only [if_pos h4, if_neg hn1, if_pos h5, if_neg hrest] at h
          exact Option.noConfusion h
      · simp only [if_pos h4, if_neg hn1, if_neg h5] at h
        exact Option.noConfusion h
  · simp only [if_neg h4] at h
    exact Option.noConfusion h

theorem readBlob_none_iff (s : List Nat) :
    readBlob s = none ↔ s.length < 4 ∨ s.length < 4 + declLen s := by
  simp only [readBlob, readFull, declLen]
  by_cases h4 : 4 ≤ s.length
  · by_cases hrest : beU32 (s.take 4) ≤ (s.drop 4).length
    · simp only [if_pos h4, if_pos hrest]
      simp only [List.length_drop] at *
      simp
      omega
    · simp only [if_pos h4, if_neg hrest]
      simp only [List.length_drop] at *
      simp
      omega
  · simp only [if_neg h4]
    simp
    omega

theorem readBlob_some_exact (s : List Nat) (b r : List Nat)
    (h : readBlob s = some (b, r)) :
    b.length = declLen s ∧ r = s.drop (4 + declLen s)
      ∧ 4 + declLen s ≤ s.length := by
  simp only [readBlob, readFull, declLen] at h ⊢
  by_cases h4 : 4 ≤ s.length
  · by_cases hrest : beU32 (s.take 4) ≤ (s.drop 4).length
    · simp only [if_pos h4, if_pos hrest, Option.some.injEq,
        Prod.mk.injEq] at h
      obtain ⟨hb, hr⟩ := h
      simp only [List.length_drop] at hrest
      refine ⟨?_, ?_, by omega⟩
      · rw [← hb]
        simp only [List.length_take, List.length_drop]
        omega
      · rw [← hr, List.drop_drop]
    · simp only [if_pos h4, if_neg hrest] at h
      exact Option.noConfusion h
  · simp only [if_neg h4] at h
    exact Option.noConfusion h

/-! ## Association lists (Go maps keyed by strings / peer ids) -/

/-- Lookup in an association list, the model of a Go map access
(`m[k]` with `ok`). -/
def lookupA {α β : Type} [DecidableEq α] : List (α × β) → α → Option β
  | [], _ => none
  | (k, v) :: rest, a => if k = a then some v else lookupA rest a

/-- Store under a key, the model of `m[k] = v`. -/
def setA {α β : Type} [DecidableEq α] : List (α × β) → α → β → List (α × β)
  | [], k, v => [(k, v)]
  | (k', v') :: rest, k, v =>
    if k' = k then (k, v) :: rest else (k', v') :: setA rest k v

/-- Remove a key, the model of `delete(m, k)`. -/
def removeA {α β : Type} [DecidableEq α] (l : List (α × β)) (k : α) :
    List (α × β) :=
  l.filter (fun p => p.1 ≠ k)

theorem lookupA_none_iff {α β : Type} [DecidableEq α]
    (l : List (α × β)) (a : α) :
    lookupA l a = none ↔ ∀ p ∈ l, p.1 ≠ a := by
  induction l with
  | nil => simp [lookupA]
  | cons p rest ih =>
    obtain ⟨k, v⟩ := p
    by_cases hk : k = a
    · simp [lookupA, hk]
    · simp [lookupA, hk, ih]

theorem lookupA_setA_self {α β : Type} [DecidableEq α]
    (l : List (α × β)) (k : α) (v : β) :
    lookupA (setA l k v) k = some v := by
  induction l with
  | nil => simp [setA, lookupA]
  | cons p rest ih =>
    obtain ⟨k', v'⟩ := p
    by_cases hk : k' = k
    · simp [setA, hk, lookupA]
    · simp [setA, hk, lookupA, ih]

theorem lookupA_removeA_self {α β : Type} [DecidableEq α]
    (l : List (α × β)) (k : α) :
    lookupA (removeA l k) k = none := by
  induction l with
  | nil => simp [removeA, lookupA]
  | cons p rest ih =>
    obtain ⟨k', v'⟩ := p
    by_cases hk : k' = k
    · simpa [removeA, hk, lookupA] using ih
    · simpa [removeA, hk, lookupA] using ih

/-! ## Hello verification (src/unnamed/part_006) and the inbound responder
handshake (src/unnamed/part_010, `handleStream` / `RunServer`) -/

/-- The fields of a peer-table entry (`PeerInfo` of src/peer.go) consulted
by `verifySignedHelloWithTable`: the 8-byte key fingerprint and the HPKE
public key. -/
structure TableEntry where
  keyId : List Nat
  hpkePub : List Nat
deriving DecidableEq, Repr

/-- `helloSignInput` of src/unnamed/part_006:
`challenge ‖ senderID ‖ 0x00 ‖ keyID ‖ edPub ‖ hpkePub`. -/
def helloSignInput (challenge : List Nat) (h : Hello) : List Nat :=
  challenge ++ h.senderId ++ [0] ++ h.senderKeyId ++ h.senderEdPub
    ++ h.senderHPKEPub

/-- `verifySignedHello` of src/unnamed/part_006: size checks on `edPub`
and `sig`, then an Ed25519 verification over `helloSignInput`. The
Ed25519 primitive is external and abstracted as `edVerify pub msg sig`.
This function never consults the peer table. -/
def verifySignedHello (edVerify : List Nat → List Nat → List Nat → Bool)
    (challenge : List Nat) (h : Hello) : Bool :=
  (h.senderEdPub.length == 32) && (h.signature.length == 64)
    && edVerify h.senderEdPub (helloSignInput challenge h) h.signature

/-- `verifySignedHelloWithTable` of src/unnamed/part_006: signature
verification plus, when the peer table holds an entry for the sender, byte
equality of the Hello's keyId and HPKE public key with that entry. -/
def verifySignedHelloWithTable
    (edVerify : List Nat → List Nat → List Nat → Bool)
    (challenge : List Nat) (h : Hello)
    (peerTable : List (List Nat × TableEntry)) : Bool :=
  verifySignedHello edVerify challenge h
    && (match lookupA peerTable h.senderId with
        | none => true
        | some e => (h.senderKeyId == e.keyId)
            && (h.senderHPKEPub == e.hpkePub))

/-- Where an inbound stream is closed during the responder handshake. -/
inductive CloseStage where
  | readError
  | wrongTag
  | badDecode
  | badVerify
deriving DecidableEq, Repr

/-- Outcome of the responder handshake: the stream is closed at some
stage, or the Hello is accepted and the request loop is entered.
`close .wrongTag` is reached before `decodeHello` runs. -/
inductive HandshakeResult where
  | close (stage : CloseStage)
  | accept (h : Hello)
deriving DecidableEq, Repr

/-- The handshake phase of `handleStream` (src/unnamed/part_010; the
`RunServer` variant in the same file is identical at this level): read one
message; `if typ != msgHello && p.console != nil` close; otherwise decode
the payload as a Hello and verify it with `verifySignedHello` — the table
cross-check of `verifySignedHelloWithTable` is not invoked. `hasConsole`
models `p.console != nil`. -/
def responderHandshake (edVerify : List Nat → List Nat → List Nat → Bool)
    (hasConsole : Bool) (challenge : List Nat) (s : List Nat) :
    HandshakeResult :=
  match readMsg s with
  | none => .close .readError
  | some (typ, payload, _) =>
    if (typ != msgHello) && hasConsole then .close .wrongTag
    else
      match decodeHello payload with
      | none => .close .badDecode
      | some h =>
        if verifySignedHello edVerify challenge h then .accept h
        else .close .badVerify

/-! ## Session pool liveness (src/pool.go + src/peer.go, and the legacy
variant src/unnamed/part_007 + src/unnamed/part_004) -/

/-- The observable state of a `peerSession` needed for liveness: its
atomic `dead` flag. A Go `*peerSession` is `Option SessionLive`, `none`
standing for `nil`. -/
structure SessionLive where
  dead : Bool
deriving DecidableEq, Repr

/-- A Go runtime panic. -/
inductive GoPanic where
  | nilDeref
deriving DecidableEq, Repr

/-- `isAlive` of src/peer.go: `ps != nil && !ps.dead.Load()` — the nil
check guards the dereference. -/
def isAlive (ps : Option SessionLive) : Bool :=
  match ps with
  | none => false
  | some s => !s.dead

/-- `isAlive` of src/unnamed/part_004 line 44:
`return !ps.dead.Load()` — no nil check, so a `nil` receiver dereferences
a nil pointer and panics. -/
def isAliveLegacy (ps : Option SessionLive) : Except GoPanic Bool :=
  match ps with
  | none => .error .nilDeref
  | some s => .ok (!s.dead)

/-- `GetSession` of src/pool.go:
`if s := p.sessions[to.Nickname]; s.isAlive() { return s, true }; return nil, false`. -/
def GetSession (sessions : List (String × SessionLive)) (nick : String) :
    Option SessionLive × Bool :=
  if isAlive (lookupA sessions nick) then (lookupA sessions nick, true)
  else (none, false)

/-- `GetSession` of src/unnamed/part_007 lines 123–132, which calls the
legacy `isAlive`; the panic propagates. -/
def GetSessionLegacy (sessions : List (String × SessionLive))
    (nick : String) : Except GoPanic (Option SessionLive × Bool) :=
  match isAliveLegacy (lookupA sessions nick) with
  | .error e => .error e
  | .ok alive =>
    .ok (if alive then (lookupA sessions nick, true) else (none, false))

/-! ## Key derivation (src/unnamed/part_001, package `identity`) -/

def SeedSize : Nat := 32

/-- `DerivedKeys` of src/unnamed/part_001. All key material is modelled
as bytes; `KeyID` is a single byte, exactly as declared
(`KeyID byte`). -/
structure DerivedKeys where
  ed25519Priv : List Nat
  ed25519Pub : List Nat
  hpkePub : List Nat
  hpkePriv : List Nat
  hpkePubBytes : List Nat
  keyId : Nat
  libp2pPriv : List Nat
  libp2pPub : List Nat
  peerId : List Nat
deriving DecidableEq, Repr

/-- The external cryptographic primitives used by `DeriveKeys`, abstracted
as pure functions (each of the underlying Go functions is deterministic
and consumes no randomness). -/
structure CryptoPrims where
  edNewKeyFromSeed : List Nat → List Nat
  edPublic : List Nat → List Nat
  kemDeriveKeyPair : List Nat → List Nat × List Nat
  kemMarshalPub : List Nat → Option (List Nat)
  sha256 : List Nat → List Nat
  keyPairFromStd : List Nat → Option (List Nat × List Nat)
  idFromPublicKey : List Nat → Option (List Nat)

/-- The serialized `KeyID` bytes of a `DerivedKeys`: the Go field is a
single `byte`, so its byte representation is the one-element list. -/
def keyIdBytes (d : DerivedKeys) : List Nat := [d.keyId]

/-- `DeriveKeys` of src/unnamed/part_001. `world` stands for the ambient
process state (random source, globals): the body never consults it,
mirroring that the Go function reads nothing but the seed. The `KeyID` is
the first byte of SHA-256 of the marshalled HPKE public key, with `0`
remapped to `1`. -/
def DeriveKeys (C : CryptoPrims) (world : List Nat) (seed : List Nat) :
    Option DerivedKeys :=
  if seed.length ≠ SeedSize then none
  else
    let edPriv := C.edNewKeyFromSeed seed
    let edPub := C.edPublic edPriv
    let kp := C.kemDeriveKeyPair seed
    match C.kemMarshalPub kp.1 with
    | none => none
    | some hpkePubBytes =>
      let k0 := (C.sha256 hpkePubBytes).headD 0
      let keyId := if k0 = 0 then 1 else k0
      match C.keyPairFromStd edPriv with
      | none => none
      | some lp =>
        match C.idFromPublicKey lp.2 with
        | none => none
        | some pid =>
          some ⟨edPriv, edPub, kp.1, kp.2, hpkePubBytes, keyId,
            lp.1, lp.2, pid⟩

/-! ## Discovery server (src/internal/node/server.go, `Server`) -/

/-- `onlinePeer` of src/internal/node/server.go. `buildPeerList` copies
these fields one-to-one into `PeerInfo`, so one type serves both here. -/
structure OnlinePeer where
  nickname : List Nat
  peerId : List Nat
  addrs : List (List Nat)
  hpkePub : List Nat
  keyId : Nat
deriving DecidableEq, Repr

/-- The server's shared state: the token table from the config, the
`online` map and the `streams` map (a stream is identified by the
nickname it is stored under). -/
structure ServerState where
  cfgPeers : List (List Nat × List Nat)
  online : List (List Nat × OnlinePeer)
  streams : List (List Nat)
deriving DecidableEq, Repr

/-- A message written by the server during `handleStream`, with its
destination: the registering stream for the first three forms, the named
push-stream for broadcasts. -/
inductive ServerOut where
  | fail (reason : String)
  | ok (peerId : List Nat)
  | list (peers : List OnlinePeer)
  | joined (p : OnlinePeer) (dest : List Nat)
deriving DecidableEq, Repr

/-- `buildPeerList`: one entry per `online` peer (field-for-field copy). -/
def buildPeerList (st : ServerState) : List OnlinePeer :=
  st.online.map (·.2)

/-- `broadcastJoined`: write `PeerJoined` to every push-stream except the
new peer's own. -/
def broadcastJoined (st : ServerState) (p : OnlinePeer) : List ServerOut :=
  (st.streams.filter (fun n => n ≠ p.nickname)).map (fun n => .joined p n)

/-- The registration path of `handleStream` (src/internal/node/server.go
lines 85–137), from a decoded `Register` on: token lookup and comparison,
the duplicate check, the peer-list snapshot taken before the insert, the
insert of the new `onlinePeer` and its stream, then `RegisterOK`,
`PeerList` and the `PeerJoined` broadcast, in that order. `connPeerId`
and `connAddrs` are what the server observes from the connection. -/
def handleRegister (st : ServerState) (reg : Register)
    (connPeerId : List Nat) (connAddrs : List (List Nat)) :
    ServerState × List ServerOut :=
  match lookupA st.cfgPeers reg.nickname with
  | none => (st, [.fail "unknown nickname"])
  | some expectedToken =>
    if reg.token ≠ expectedToken then (st, [.fail "invalid token"])
    else
      match lookupA st.online reg.nickname with
      | some _ => (st, [.fail "nickname already in use"])
      | none =>
        let newPeer : OnlinePeer :=
          ⟨reg.nickname, connPeerId, connAddrs, reg.hpkePub, reg.keyId⟩
        let snapshot := buildPeerList st
        let st' : ServerState :=
          { st with
            online := setA st.online reg.nickname newPeer,
            streams := reg.nickname :: st.streams }
        (st', [.ok connPeerId, .list snapshot] ++ broadcastJoined st' newPeer)

/-! ## Discovery client (src/internal/node/server.go, `Client`) -/

/-- `node.PeerInfo` as carried by the client (this generation uses the
8-byte `[]byte` key fingerprint). -/
structure CPeerInfo where
  nickname : List Nat
  peerId : List Nat
  addrs : List (List Nat)
  hpkePub : List Nat
  keyId : List Nat
deriving DecidableEq, Repr

/-- `TrackedPeer`: a `PeerInfo` plus the set of node ids that reported the
peer (`SeenBy`, modelled as a duplicate-free list). -/
structure TrackedPeer where
  info : CPeerInfo
  seenBy : List (List Nat)
deriving DecidableEq, Repr

/-- The client's shared state: the connected-node set (`nodes` map domain)
and the tracked-peer table (`peers`). -/
structure ClientState where
  nodes : List (List Nat)
  peers : List (List Nat × TrackedPeer)
deriving DecidableEq, Repr

/-- Set insertion for `SeenBy[nodeID] = true`. -/
def insertSeen (nodeId : List Nat) (s : List (List Nat)) : List (List Nat) :=
  if nodeId ∈ s then s else nodeId :: s

/-- `addPeer`: on an existing entry, add the node to `SeenBy` and take the
fresher addresses (only the addresses are refreshed); otherwise create the
entry with `SeenBy = {nodeID}`. The `OnPeerJoined` callback is outside
the state. -/
def addPeer (info : CPeerInfo) (nodeId : List Nat) (st : ClientState) :
    ClientState :=
  match lookupA st.peers info.nickname with
  | some t =>
    { st with
      peers := setA st.peers info.nickname
        { t with
          seenBy := insertSeen nodeId t.seenBy,
          info := { t.info with addrs := info.addrs } } }
  | none =>
    { st with peers := setA st.peers info.nickname ⟨info, [nodeId]⟩ }

/-- `removePeerFromNode` (src/internal/node/server.go lines 409–428): a
missing entry is a no-op (the handler is not called either); otherwise the
node is removed from `SeenBy` and the entry is dropped iff `SeenBy`
became empty. -/
def removePeerFromNode (nick nodeId : List Nat) (st : ClientState) :
    ClientState :=
  match lookupA st.peers nick with
  | none => st
  | some t =>
    let sb := t.seenBy.erase nodeId
    if sb = [] then { st with peers := removeA st.peers nick }
    else { st with peers := setA st.peers nick { t with seenBy := sb } }

/-- `Connect` storing the node connection (`c.nodes[addrInfo.ID] = nc`). -/
def nodeConnect (nodeId : List Nat) (st : ClientState) : ClientState :=
  { st with nodes := insertSeen nodeId st.nodes }

/-- The deferred cleanup of the client's `readLoop` (src/internal/node/
server.go lines 430–440): close the stream, `delete(c.nodes, nc.nodeID)`,
fire `OnNodeDisconnected`. It touches nothing else — in particular no
`SeenBy` set and no `peers` entry. -/
def nodeDisconnect (nodeId : List Nat) (st : ClientState) : ClientState :=
  { st with nodes := st.nodes.filter (fun n => n ≠ nodeId) }

/-! ## Outbound session correlation (src/peer.go, `peerSession`) -/

/-- The per-session state of src/peer.go: the monotonic `nextID` counter,
the domain of the `pending` map, the set of still-blocked `DoRequest`
waiters (one per live rendezvous channel), the atomic `dead` flag, and
the multiset of request ids written to the stream so far. -/
structure SessState where
  nextId : Nat
  pending : List Nat
  waiters : List Nat
  dead : Bool
  written : List Nat
deriving DecidableEq, Repr

/-- One atomic interaction with a session:
`doReq ok` is a `DoRequest` call up to (and including) its frame write,
with `ok` the write outcome; `recvResp id` is the reader receiving a
`Response` with correlation id `id`; `recvOther` is any non-Response or
undecodable frame; `readFail` is a read error triggering `failAll`. -/
inductive SEvent where
  | doReq (writeOk : Bool)
  | recvResp (id : Nat)
  | recvOther
  | readFail
deriving DecidableEq, Repr

def initSess : SessState := ⟨0, [], [], false, []⟩

/-- The state transition of src/peer.go. `doReq`: a dead session returns
an error before touching the counter; otherwise
`id := atomic.AddUint64(&nextID, 1)` — a `uint64` increment, so the new
id is `(nextId + 1) % 2^64`. The channel is then stored with
`pending[id] = ch`: a map write, so the domain gains `id` only if absent,
and a colliding write (after the counter wraps) replaces the old channel,
whose waiter stays blocked but is no longer reachable through the map.
On a successful write the caller becomes a waiter and `id` goes on the
wire (`written`); on a failed write `delete(pending, id)` removes the map
entry and the caller returns without ever blocking on the channel.
`recvResp`: the reader (running only while the session is not dead) looks
the id up, deletes it, and delivers iff a channel was found, waking the
waiter holding that channel (the most recently stored one); an unknown id
is dropped. `readFail`: `failAll` marks the session dead, clears
`pending` and closes each mapped channel — waking one waiter per pending
id (newest first); orphaned waiters are not woken. -/
def sessStep (st : SessState) : SEvent → SessState
  | .doReq writeOk =>
    if st.dead then st
    else
      let id := (st.nextId + 1) % 2 ^ 64
      if writeOk then
        { st with
          nextId := id,
          pending := if id ∈ st.pending then st.pending
            else id :: st.pending,
          waiters := id :: st.waiters,
          written := st.written ++ [id] }
      else
        { st with
          nextId := id,
          pending := (if id ∈ st.pending then st.pending
            else id :: st.pending).erase id,
          waiters := st.waiters }
  | .recvResp id =>
    if st.dead then st
    else
      { st with
        pending := st.pending.erase id,
        waiters := if id ∈ st.pending then st.waiters.erase id
          else st.waiters }
  | .recvOther => st
  | .readFail =>
    if st.dead then st
    else
      { st with
        dead := true,
        pending := [],
        waiters := st.waiters.diff st.pending }

def runSess (es : List SEvent) : SessState :=
  es.foldl sessStep initSess

/-- The number of `DoRequest` attempts in a trace (each one that finds
the session alive advances the `uint64` counter once). -/
def countDoReq : List SEvent → Nat
  | [] => 0
  | .doReq _ :: rest => countDoReq rest + 1
  | .recvResp _ :: rest => countDoReq rest
  | .recvOther :: rest => countDoReq rest
  | .readFail :: rest => countDoReq rest

theorem list_diff_self (l : List Nat) : l.diff l = [] := by
  induction l with
  | nil => rfl
  | cons a t ih => simp [List.diff_cons, ih]

/-- The session invariant: pending ids and blocked waiters coincide, are
duplicate-free and bounded by the counter, written ids are strictly
decreasing in list order (they are appended in increasing order and kept
newest-first here — `written ++ [id]`, so `Pairwise (· < ·)`), and a dead
session has no pending entries. -/
def SessInv (st : SessState) : Prop :=
  st.pending = st.waiters ∧ st.pending.Nodup ∧
    (∀ i ∈ st.pending, 1 ≤ i ∧ i ≤ st.nextId) ∧
    st.written.Pairwise (· < ·) ∧ (∀ i ∈ st.written, 1 ≤ i ∧ i ≤ st.nextId) ∧
    (st.dead → st.pending = [])

theorem sessInv_init : SessInv initSess := by
  simp [SessInv, initSess]

theorem sessInv_step (st : SessState) (e : SEvent) (h : SessInv st)
    (hnw : countDoReq [e] = 1 → st.nextId + 1 < 2 ^ 64) :
    SessInv (sessStep st e) ∧ (sessStep st e).nextId ≤ st.nextId + countDoReq [e] := by
  obtain ⟨hpw, hnd, hbound, hwr, hwb, hdead⟩ := h
  cases e with
  | doReq ok =>
    have hlt : st.nextId + 1 < 2 ^ 64 := hnw rfl
    have hid : (st.nextId + 1) % 2 ^ 64 = st.nextId + 1 :=
      Nat.mod_eq_of_lt hlt
    by_cases hd : st.dead
    · have hstep : sessStep st (.doReq ok) = st := by
        simp [sessStep, hd]
      rw [hstep]
      exact ⟨⟨hpw, hnd, hbound, hwr, hwb, hdead⟩, Nat.le_add_right _ _⟩
    · have hfresh : st.nextId + 1 ∉ st.pending := by
        intro hmem
        exact absurd (hbound _ hmem).2 (by omega)
      cases ok with
      | true =>
        have hstep : sessStep st (.doReq true)
            = { st with
                nextId := st.nextId + 1,
                pending := (st.nextId + 1) :: st.pending,
                waiters := (st.nextId + 1) :: st.waiters,
                written := st.written ++ [st.nextId + 1] } := by
          simp only [sessStep, if_neg hd, hid, if_neg hfresh, reduceIte]
        rw [hstep]
        refine ⟨⟨by rw [hpw], List.Nodup.cons hfresh hnd, ?_, ?_, ?_, ?_⟩,
          Nat.le_refl _⟩
        · intro i hi
          show 1 ≤ i ∧ i ≤ st.nextId + 1
          rcases List.mem_cons.mp hi with hi | hi
          · omega
          · have := hbound i hi
            omega
        · rw [List.pairwise_append]
          refine ⟨hwr, by simp, ?_⟩
          intro a ha b hb
          rw [List.mem_singleton] at hb
          have := hwb a ha
          omega
        · intro i hi
          show 1 ≤ i ∧ i ≤ st.nextId + 1
          rcases List.mem_append.mp hi with hi | hi
          · have := hwb i hi
            omega
          · rw [List.mem_singleton] at hi
            omega
        · intro hcon
          exact absurd hcon hd
      | false =>
        have hstep : sessStep st (.doReq false)
            = { st with
                nextId := st.nextId + 1,
                pending := st.pending,
                waiters := st.waiters } := by
          simp only [sessStep, if_neg hd, hid, if_neg hfresh,
            List.erase_cons_head, Bool.false_eq_true, reduceIte]
        rw [hstep]
        refine ⟨⟨hpw, hnd, ?_, hwr, ?_, fun hcon => absurd hcon hd⟩,
          Nat.le_refl _⟩
        · intro i hi
          show 1 ≤ i ∧ i ≤ st.nextId + 1
          have := hbound i hi
          omega
        · intro i hi
          show 1 ≤ i ∧ i ≤ st.nextId + 1
          have := hwb i hi
          omega
  | recvResp id =>
    have hnext : (sessStep st (.recvResp id)).nextId = st.nextId := by
      by_cases hd : st.dead <;> simp [sessStep, hd]
    refine ⟨?_, by rw [hnext]; exact Nat.le_add_right _ _⟩
    by_cases hd : st.dead
    · simpa [sessStep, hd] using ⟨hpw, hnd, hbound, hwr, hwb, hdead⟩
    · by_cases hmem : id ∈ st.pending
      · have hstep : sessStep st (.recvResp id)
            = { st with
                pending := st.pending.erase id,
                waiters := st.waiters.erase id } := by
          simp [sessStep, hd, hmem]
        rw [hstep]
        refine ⟨by rw [hpw], hnd.erase id, ?_, hwr, hwb,
          fun hcon => absurd hcon hd⟩
        intro i hi
        exact hbound i (List.mem_of_mem_erase hi)
      · have hstep : sessStep st (.recvResp id) = st := by
          simp only [sessStep, if_neg hd, if_neg hmem,
            List.erase_of_not_mem hmem]
        rw [hstep]
        exact ⟨hpw, hnd, hbound, hwr, hwb, hdead⟩
  | recvOther =>
    exact ⟨⟨hpw, hnd, hbound, hwr, hwb, hdead⟩, Nat.le_add_right _ _⟩
  | readFail =>
    have hnext : (sessStep st .readFail).nextId = st.nextId := by
      by_cases hd : st.dead <;> simp [sessStep, hd]
    refine ⟨?_, by rw [hnext]; exact Nat.le_add_right _ _⟩
    by_cases hd : st.dead
    · simpa [sessStep, hd] using ⟨hpw, hnd, hbound, hwr, hwb, hdead⟩
    · have hstep : sessStep st .readFail
          = { st with
              dead := true,
              pending := [],
              waiters := st.waiters.diff st.pending } := by
        simp [sessStep, hd]
      rw [hstep]
      exact ⟨by rw [← hpw, list_diff_self], List.nodup_nil, by simp,
        hwr, hwb, fun _ => rfl⟩

theorem sessInv_foldl (es : List SEvent) (st : SessState) (h : SessInv st)
    (hb : st.nextId + countDoReq es < 2 ^ 64) :
    SessInv (es.foldl sessStep st)
  ∧ (es.foldl sessStep st).nextId ≤ st.nextId + countDoReq es := by
  induction es generalizing st with
  | nil => exact ⟨h, Nat.le_add_right _ _⟩
  | cons e rest ih =>
    have hsplit : countDoReq (e :: rest) = countDoReq [e] + countDoReq rest := by
      cases e <;> simp [countDoReq] <;> omega
    rw [hsplit] at hb
    have hnw : countDoReq [e] = 1 → st.nextId + 1 < 2 ^ 64 := by
      intro h1
      omega
    obtain ⟨h1, h2⟩ := sessInv_step st e h hnw
    have hb' : (sessStep st e).nextId + countDoReq rest < 2 ^ 64 := by
      omega
    obtain ⟨h3, h4⟩ := ih (sessStep st e) h1 hb'
    rw [hsplit]
    refine ⟨?_, ?_⟩
    · rw [List.foldl_cons]
      exact h3
    · rw [List.foldl_cons]
      omega

theorem sessInv_run (es : List SEvent) (hb : countDoReq es < 2 ^ 64) :
    SessInv (runSess es) :=
  (sessInv_foldl es initSess sessInv_init
    (by simpa [initSess] using hb)).1

/-! ## Concrete values used by witnesses and counterexamples -/

/-- An Ed25519 verifier that accepts; stands for a verification that
succeeded (e.g. a correctly signed Hello). -/
def edVerifyAlways : List Nat → List Nat → List Nat → Bool :=
  fun _ _ _ => true

/-- The bytes of the nickname string of the examples. -/
def bobNick : List Nat := [98, 111, 98]

def chalEx : List Nat := List.replicate 32 1

/-- A structurally valid Hello from `bob` whose keyId disagrees with the
peer-table entry below. -/
def helloEx2 : Hello :=
  ⟨bobNick, [2, 2, 2, 2, 2, 2, 2, 2], List.replicate 32 9, [5, 5],
    List.replicate 64 3⟩

/-- A peer table pinning `bob` to a different keyId (same HPKE key). -/
def tableEx2 : List (List Nat × TableEntry) :=
  [(bobNick, ⟨[1, 1, 1, 1, 1, 1, 1, 1], [5, 5]⟩)]

/-- A discovery-node identifier. -/
def nodeIdEx : List Nat := [78, 49]

/-- The roster entry for `bob` used in the client examples (8-byte
fingerprint form). -/
def bobInfoEx : CPeerInfo :=
  ⟨bobNick, [12], [[4, 4]], [2], [3, 3, 3, 3, 3, 3, 3, 3]⟩

/-! ## Claim C1 — discovery-client cleanup on node disconnect -/

/-- Claim C1, counterexample. One node `N` connects and reports `bob`;
then `N`'s read loop exits. The claim says `N` is removed from every
`SeenBy` and `bob` (whose `SeenBy` would become empty) is dropped. In the
code the read-loop teardown only deletes the node connection: afterwards
no node is connected, yet `bob` is still tracked and its `SeenBy` still
contains `N`. -/
theorem client_disconnect_keeps_peer_cex :
    (nodeDisconnect nodeIdEx
        (addPeer bobInfoEx nodeIdEx (nodeConnect nodeIdEx ⟨[], []⟩))).nodes
      = []
  ∧ lookupA (nodeDisconnect nodeIdEx
        (addPeer bobInfoEx nodeIdEx (nodeConnect nodeIdEx ⟨[], []⟩))).peers
        bobNick
      = some ⟨bobInfoEx, [nodeIdEx]⟩ := by
  decide

/-- Claim C1, amended: losing the connection to node `N` removes `N` from
the client's node map and fires `OnNodeDisconnected`, but leaves the
tracked-peer table (every `SeenBy` set included) unchanged; `SeenBy`
pruning — and dropping an entry whose `SeenBy` becomes empty — happens
only on an explicit `PeerLeft` event via `removePeerFromNode`, so a
`TrackedPeer` can outlive the connections of all nodes that reported
it. -/
theorem client_disconnect_amended (st : ClientState)
    (nick nodeId : List Nat) (t : TrackedPeer) :
    (nodeDisconnect nodeId st).peers = st.peers
  ∧ (lookupA st.peers nick = some t →
      (t.seenBy.erase nodeId = [] →
          lookupA (removePeerFromNode nick nodeId st).peers nick = none)
      ∧ (t.seenBy.erase nodeId ≠ [] →
          lookupA (removePeerFromNode nick nodeId st).peers nick
            = some { t with seenBy := t.seenBy.erase nodeId })) := by
  refine ⟨rfl, ?_⟩
  intro hl
  constructor
  · intro hemp
    simp only [removePeerFromNode, hl, hemp, if_pos]
    exact lookupA_removeA_self st.peers nick
  · intro hne
    simp only [removePeerFromNode, hl, if_neg hne]
    exact lookupA_setA_self st.peers nick _

theorem client_disconnect_amended_witness :
    (nodeDisconnect nodeIdEx
        ⟨[nodeIdEx], [(bobNick, ⟨bobInfoEx, [nodeIdEx]⟩)]⟩).peers
      = (⟨[nodeIdEx], [(bobNick, ⟨bobInfoEx, [nodeIdEx]⟩)]⟩
          : ClientState).peers
  ∧ lookupA (removePeerFromNode bobNick nodeIdEx
        ⟨[nodeIdEx], [(bobNick, ⟨bobInfoEx, [nodeIdEx]⟩)]⟩).peers bobNick
      = none :=
  ⟨(client_disconnect_amended
      ⟨[nodeIdEx], [(bobNick, ⟨bobInfoEx, [nodeIdEx]⟩)]⟩
      bobNick nodeIdEx ⟨bobInfoEx, [nodeIdEx]⟩).1,
   (((client_disconnect_amended
      ⟨[nodeIdEx], [(bobNick, ⟨bobInfoEx, [nodeIdEx]⟩)]⟩
      bobNick nodeIdEx ⟨bobInfoEx, [nodeIdEx]⟩).2 (by decide)).1
      (by decide))⟩

/-! ## Claim C2 — the responder does not cross-check the peer table -/

/-- Claim C2. The spec (and `verifySignedHelloWithTable`, which
`handleStream` never calls) requires the responder to reject a Hello whose
keyId differs from the peer-table entry for the sender. Evaluating the
responder of src/unnamed/part_010 on such a Hello (signature verification
passing): the handshake accepts, while the table cross-check that the
claim requires rejects. -/
theorem responder_accepts_despite_table_mismatch :
    responderHandshake edVerifyAlways true chalEx
        (writeMsg msgHello (encodeHello helloEx2))
      = .accept helloEx2
  ∧ verifySignedHello edVerifyAlways chalEx helloEx2 = true
  ∧ verifySignedHelloWithTable edVerifyAlways chalEx helloEx2 tableEx2
      = false := by
  decide

/-! ## Claim C3 — a non-Hello tag closes the stream before decoding -/

/-- Claim C3: after writing the challenge the responder reads one message;
when its tag is not `msgHello` (and the pool's console is set, which holds
whenever the handler runs — `setConsole` precedes handler registration),
the stream is closed at the `wrongTag` stage, before `decodeHello` and
before any verification. -/
theorem responder_wrong_tag_closes
    (edV : List Nat → List Nat → List Nat → Bool)
    (chal s : List Nat) (t : Nat) (p r : List Nat)
    (h1 : readMsg s = some (t, p, r)) (h2 : t ≠ msgHello) :
    responderHandshake edV true chal s = .close .wrongTag := by
  simp [responderHandshake, h1, h2]

theorem responder_wrong_tag_closes_witness :
    responderHandshake edVerifyAlways true chalEx (writeMsg 3 [1, 2])
      = .close .wrongTag :=
  responder_wrong_tag_closes edVerifyAlways chalEx (writeMsg 3 [1, 2])
    3 [1, 2] [] (by decide) (by decide)

/-! ## Claim C4 — the Register payload layout -/

/-- Modelled from the spec: the §4.3 Register payload layout
`blob(nick), blob(token), blob(kemPub), blob(keyId)`. The current
`internal/node/protocol.go` — the one protocol_test.go and the discovery
`Client` compile against, with an 8-byte `[]byte` KeyID — is not among
the source files; src/unnamed/part_003 is an earlier generation with a
one-byte `KeyID`. -/
def encodeRegisterSpec (nick tok kemPub keyId : List Nat) : List Nat :=
  writeBlob nick ++ writeBlob tok ++ writeBlob kemPub ++ writeBlob keyId

/-- Bytes of `"alice"` and `"secret-token"`, the inputs of
`TestEncodeDecodeRegister`. -/
def aliceNick : List Nat := [97, 108, 105, 99, 101]
def tokEx : List Nat := [115, 101, 99, 114, 101, 116, 45, 116, 111, 107,
  101, 110]

/-- The 8-byte fingerprint of `TestEncodeDecodeRegister`. -/
def keyId8Ex : List Nat := [122, 27, 44, 61, 78, 95, 96, 113]

/-- Claim C4. `EncodeRegister` of src/unnamed/part_003 appends the keyId
as one raw, unprefixed byte (`Register.KeyID` is a single `byte`), so the
payload is three blobs plus one byte — not the four length-prefixed blobs
of the claim; in particular it differs from `blob(keyId)` even for a
one-byte keyId, and the four-blob form with the 8-byte fingerprint of the
package's own test is 11 bytes longer than anything `EncodeRegister` can
produce for the same nick/token/kemPub. -/
theorem register_layout_bug :
    EncodeRegister ⟨aliceNick, tokEx, [1, 2, 3, 4], 122⟩
      = writeBlob aliceNick ++ writeBlob tokEx ++ writeBlob [1, 2, 3, 4]
        ++ [122]
  ∧ EncodeRegister ⟨aliceNick, tokEx, [1, 2, 3, 4], 122⟩
      ≠ encodeRegisterSpec aliceNick tokEx [1, 2, 3, 4] [122]
  ∧ (encodeRegisterSpec aliceNick tokEx [1, 2, 3, 4] keyId8Ex).length
      = (EncodeRegister ⟨aliceNick, tokEx, [1, 2, 3, 4], 122⟩).length
        + 11 := by
  decide

/-! ## Claim C5 — exactness of the framing primitives -/

/-- Claim C5: `readMsg` and `readBlob` error exactly on a short read
(fewer stream bytes than the header), a declaration the stream cannot
supply (`s.length < 4 + declLen s`, the oversize case), or, for a
message, a declared total length `< 1`; on success they consume exactly
`4 + declLen s` bytes — the remaining stream is `s.drop (4 + declLen s)`,
never less. -/
theorem frame_codec_exact (s : List Nat) :
    (readMsg s = none
      ↔ s.length < 4 ∨ declLen s < 1 ∨ s.length < 4 + declLen s)
  ∧ (∀ t p r, readMsg s = some (t, p, r) →
      p.length + 1 = declLen s ∧ r = s.drop (4 + declLen s)
        ∧ 4 + declLen s ≤ s.length)
  ∧ (readBlob s = none ↔ s.length < 4 ∨ s.length < 4 + declLen s)
  ∧ (∀ b r, readBlob s = some (b, r) →
      b.length = declLen s ∧ r = s.drop (4 + declLen s)
        ∧ 4 + declLen s ≤ s.length) :=
  ⟨readMsg_none_iff s, fun t p r h => readMsg_some_exact s t p r h,
   readBlob_none_iff s, fun b r h => readBlob_some_exact s b r h⟩

theorem frame_codec_exact_witness :
    (([9] : List Nat).length + 1 = declLen [0, 0, 0, 2, 7, 9]
      ∧ ([] : List Nat) = [0, 0, 0, 2, 7, 9].drop
          (4 + declLen [0, 0, 0, 2, 7, 9])
      ∧ 4 + declLen [0, 0, 0, 2, 7, 9]
          ≤ ([0, 0, 0, 2, 7, 9] : List Nat).length)
  ∧ (([5] : List Nat).length = declLen [0, 0, 0, 1, 5]
      ∧ ([] : List Nat) = [0, 0, 0, 1, 5].drop (4 + declLen [0, 0, 0, 1, 5])
      ∧ 4 + declLen [0, 0, 0, 1, 5]
          ≤ ([0, 0, 0, 1, 5] : List Nat).length) :=
  ⟨(frame_codec_exact [0, 0, 0, 2, 7, 9]).2.1 7 [9] [] (by decide),
   (frame_codec_exact [0, 0, 0, 1, 5]).2.2.2 [5] [] (by decide)⟩

/-! ## Claim C6 — round-trips of every wire message type -/

/-- Claim C6: for every discovery-wire and session-wire message type,
decoding the encoding of a structurally valid value yields the value
back (validity: exact fingerprint width where the decoder checks it,
`u32`/`u64` fields within range). -/
theorem wire_round_trip :
    (∀ h, validHello h → decodeHello (encodeHello h) = some h)
  ∧ (∀ r, validRequest r → decodeRequest (encodeRequest r) = some r)
  ∧ (∀ r, validResponse r → decodeResponse (encodeResponse r) = some r)
  ∧ (∀ g, validGoodbye g → decodeGoodbye (encodeGoodbye g) = some g)
  ∧ (∀ r, validRegister r → DecodeRegister (EncodeRegister r) = some r)
  ∧ (∀ r : RegisterOK, DecodeRegisterOK (EncodeRegisterOK r) = r)
  ∧ (∀ r : RegisterFail, DecodeRegisterFail (EncodeRegisterFail r) = r)
  ∧ (∀ p, validPeerJoined p → DecodePeerJoined (EncodePeerJoined p) = some p)
  ∧ (∀ p : PeerLeft, DecodePeerLeft (EncodePeerLeft p) = p)
  ∧ (∀ l, validPeerList l → DecodePeerList (EncodePeerList l) = some l) :=
  ⟨decodeHello_encodeHello, decodeRequest_encodeRequest,
   decodeResponse_encodeResponse, decodeGoodbye_encodeGoodbye,
   DecodeRegister_EncodeRegister, fun _ => rfl, fun _ => rfl,
   DecodePeerJoined_EncodePeerJoined, fun _ => rfl,
   DecodePeerList_EncodePeerList⟩

def reqEx6 : Request := ⟨5, [1, 2, 3, 4, 5, 6, 7, 8], [9], [10], [11]⟩
def respEx6 : Response := ⟨7, [1], [2]⟩
def regEx6 : Register := ⟨aliceNick, tokEx, [1, 2], 9⟩
def pjEx6 : PeerJoined := ⟨bobNick, [3], [[1], [2, 2]], [4], 9⟩

theorem wire_round_trip_witness :
    decodeHello (encodeHello helloEx2) = some helloEx2
  ∧ decodeRequest (encodeRequest reqEx6) = some reqEx6
  ∧ decodeResponse (encodeResponse respEx6) = some respEx6
  ∧ decodeGoodbye (encodeGoodbye ⟨bobNick⟩) = some ⟨bobNick⟩
  ∧ DecodeRegister (EncodeRegister regEx6) = some regEx6
  ∧ DecodePeerJoined (EncodePeerJoined pjEx6) = some pjEx6
  ∧ DecodePeerList (EncodePeerList ⟨[pjEx6]⟩) = some ⟨[pjEx6]⟩ :=
  ⟨wire_round_trip.1 helloEx2 (by decide),
   wire_round_trip.2.1 reqEx6 (by decide),
   wire_round_trip.2.2.1 respEx6 (by decide),
   wire_round_trip.2.2.2.1 ⟨bobNick⟩ (by decide),
   wire_round_trip.2.2.2.2.1 regEx6 (by decide),
   wire_round_trip.2.2.2.2.2.2.2.1 pjEx6 (by decide),
   wire_round_trip.2.2.2.2.2.2.2.2.2 ⟨[pjEx6]⟩ (by decide)⟩

/-! ## Claim C7 — session correlation -/

/-- Claim C7, amended: in every session state reachable by a trace with
fewer than `2^64` `DoRequest` attempts — so the `uint64` counter
(`atomic.AddUint64`, which wraps mod `2^64`) has not wrapped — the
request ids written so far are strictly increasing (hence unique within
the session), the pending map's domain coincides with the set of blocked
waiters, and a received Response either matches a pending id — that one
slot is removed (exactly once, by `Nodup`) and its waiter completed — or
matches none and leaves the session state unchanged. Without the bound
the counter wraps and reuses ids (`session_counter_wrap_cex`). -/
theorem session_correlation (es : List SEvent)
    (hcount : countDoReq es < 2 ^ 64) :
    (runSess es).written.Pairwise (· < ·)
  ∧ (runSess es).pending = (runSess es).waiters
  ∧ (∀ id, id ∈ (runSess es).pending →
      (sessStep (runSess es) (.recvResp id)).pending
          = (runSess es).pending.erase id
      ∧ id ∉ (sessStep (runSess es) (.recvResp id)).pending
      ∧ (sessStep (runSess es) (.recvResp id)).waiters
          = (runSess es).waiters.erase id)
  ∧ (∀ id, id ∉ (runSess es).pending →
      sessStep (runSess es) (.recvResp id) = runSess es) := by
  obtain ⟨hpw, hnd, hbound, hwr, hwb, hdead⟩ := sessInv_run es hcount
  refine ⟨hwr, hpw, ?_, ?_⟩
  · intro id hmem
    have hndd : ¬(runSess es).dead = true := by
      intro hdd
      rw [hdead hdd] at hmem
      exact List.not_mem_nil id hmem
    have hstep : sessStep (runSess es) (.recvResp id)
        = { runSess es with
            pending := (runSess es).pending.erase id,
            waiters := (runSess es).waiters.erase id } := by
      simp only [sessStep, if_neg hndd, if_pos hmem]
    rw [hstep]
    refine ⟨rfl, ?_, rfl⟩
    intro hin
    exact ((hnd.mem_erase_iff).mp hin).1 rfl
  · intro id hmem
    by_cases hdd : (runSess es).dead
    · simp [sessStep, hdd]
    · simp only [sessStep, if_neg hdd, if_neg hmem,
        List.erase_of_not_mem hmem]

theorem session_correlation_witness :
    ((sessStep (runSess [.doReq true, .doReq true]) (.recvResp 1)).pending
        = (runSess [.doReq true, .doReq true]).pending.erase 1
      ∧ 1 ∉ (sessStep (runSess [.doReq true, .doReq true])
          (.recvResp 1)).pending
      ∧ (sessStep (runSess [.doReq true, .doReq true]) (.recvResp 1)).waiters
        = (runSess [.doReq true, .doReq true]).waiters.erase 1)
  ∧ sessStep (runSess [.doReq true, .doReq true]) (.recvResp 5)
      = runSess [.doReq true, .doReq true] :=
  ⟨(session_correlation [.doReq true, .doReq true] (by decide)).2.2.1 1
      (by decide),
   (session_correlation [.doReq true, .doReq true] (by decide)).2.2.2 5
      (by decide)⟩

theorem sessStep_doReq_true_proj (st : SessState) (hd : st.dead = false) :
    (sessStep st (.doReq true)).written
        = st.written ++ [(st.nextId + 1) % 2 ^ 64]
  ∧ (sessStep st (.doReq true)).nextId = (st.nextId + 1) % 2 ^ 64
  ∧ (sessStep st (.doReq true)).dead = false := by
  simp [sessStep, hd]

theorem foldl_replicate_doReq (k : Nat) :
    ∀ st : SessState, st.dead = false → st.nextId < 2 ^ 64 →
      ((List.replicate k (SEvent.doReq true)).foldl sessStep st).written
          = st.written
            ++ (List.range k).map (fun i => (st.nextId + i + 1) % 2 ^ 64)
      ∧ ((List.replicate k (SEvent.doReq true)).foldl sessStep st).nextId
          = (st.nextId + k) % 2 ^ 64
      ∧ ((List.replicate k (SEvent.doReq true)).foldl sessStep st).dead
          = false := by
  induction k with
  | zero =>
    intro st hd hn
    refine ⟨by simp, ?_, hd⟩
    simp only [List.replicate_zero, List.foldl_nil]
    omega
  | succ k ih =>
    intro st hd hn
    obtain ⟨ihw, ihn, ihd⟩ := ih st hd hn
    obtain ⟨hw, hn', hd'⟩ := sessStep_doReq_true_proj
      ((List.replicate k (SEvent.doReq true)).foldl sessStep st) ihd
    rw [List.replicate_succ', List.foldl_append, List.foldl_cons,
      List.foldl_nil]
    refine ⟨?_, ?_, hd'⟩
    · rw [hw, ihw, ihn, Nat.mod_add_mod, List.range_succ, List.map_append,
        List.append_assoc]
      simp
    · rw [hn', ihn, Nat.mod_add_mod]
      congr 1

theorem runSess_replicate_written (k : Nat) :
    (runSess (List.replicate k (SEvent.doReq true))).written
      = (List.range k).map (fun i => (i + 1) % 2 ^ 64) := by
  obtain ⟨hw, -, -⟩ := foldl_replicate_doReq k initSess rfl
    (by norm_num [initSess])
  simpa [runSess, initSess] using hw

/-- Claim C7, counterexample to the unconditional uniqueness: on the
trace of `2^64 + 1` successful `DoRequest` calls, the wrapping `uint64`
counter produces the id `1` both for the first request and for the
`2^64+1`-st, so the written ids are neither duplicate-free nor strictly
increasing. -/
theorem session_counter_wrap_cex :
    ¬(runSess (List.replicate (2 ^ 64 + 1)
        (SEvent.doReq true))).written.Nodup
  ∧ ¬(runSess (List.replicate (2 ^ 64 + 1)
        (SEvent.doReq true))).written.Pairwise (· < ·) := by
  have hw := runSess_replicate_written (2 ^ 64 + 1)
  have hlen : ((List.range (2 ^ 64 + 1)).map
      (fun i => (i + 1) % 2 ^ 64)).length = 2 ^ 64 + 1 := by
    simp
  have h0 : (0 : Nat) < ((List.range (2 ^ 64 + 1)).map
      (fun i => (i + 1) % 2 ^ 64)).length := by
    rw [hlen]
    norm_num
  have h1 : 2 ^ 64 < ((List.range (2 ^ 64 + 1)).map
      (fun i => (i + 1) % 2 ^ 64)).length := by
    rw [hlen]
    norm_num
  constructor
  · intro hnodup
    rw [hw] at hnodup
    unfold List.Nodup at hnodup
    rw [List.pairwise_iff_getElem] at hnodup
    have hne := hnodup 0 (2 ^ 64) h0 h1 (by norm_num)
    simp only [List.getElem_map, List.getElem_range] at hne
    omega
  · intro hpair
    rw [hw] at hpair
    rw [List.pairwise_iff_getElem] at hpair
    have hlt := hpair 0 (2 ^ 64) h0 h1 (by norm_num)
    simp only [List.getElem_map, List.getElem_range] at hlt
    omega

/-! ## Claim C8 — registration sends RegisterOk, then the pre-insert
snapshot -/

/-- Claim C8: on a successful registration the server's outputs start
with `RegisterOK` followed by `PeerList`, the peer list is the snapshot
of `online` taken before the new peer was inserted (so the registering
nickname never appears in it, given the duplicate check and the map
invariant that entries are stored under their own nickname), and the
first registration on an empty node yields exactly `RegisterOK` then an
empty `PeerList`. -/
theorem register_ok_before_peerlist (st : ServerState) (reg : Register)
    (pid : List Nat) (addrs : List (List Nat))
    (hcfg : lookupA st.cfgPeers reg.nickname = some reg.token)
    (hnew : lookupA st.online reg.nickname = none)
    (hinv : ∀ kp ∈ st.online, (kp.2).nickname = kp.1) :
    (handleRegister st reg pid addrs).2.take 2
        = [.ok pid, .list (buildPeerList st)]
  ∧ (∀ q ∈ buildPeerList st, q.nickname ≠ reg.nickname)
  ∧ (st.online = [] → st.streams = [] →
      (handleRegister st reg pid addrs).2 = [.ok pid, .list []]) := by
  refine ⟨?_, ?_, ?_⟩
  · simp [handleRegister, hcfg, hnew]
  · intro q hq
    obtain ⟨kp, hkp, hq2⟩ := List.mem_map.mp hq
    intro hcon
    rw [lookupA_none_iff] at hnew
    exact hnew kp hkp (by rw [← hinv kp hkp, hq2, hcon])
  · intro hon hstr
    simp [handleRegister, hcfg, hnew, broadcastJoined, buildPeerList,
      hon, hstr, setA, lookupA]

theorem register_ok_before_peerlist_witness :
    (handleRegister ⟨[(aliceNick, tokEx)], [], []⟩
        ⟨aliceNick, tokEx, [9], 5⟩ [7] [[1]]).2.take 2
      = [.ok [7], .list (buildPeerList ⟨[(aliceNick, tokEx)], [], []⟩)]
  ∧ (handleRegister ⟨[(aliceNick, tokEx)], [], []⟩
        ⟨aliceNick, tokEx, [9], 5⟩ [7] [[1]]).2 = [.ok [7], .list []] :=
  ⟨(register_ok_before_peerlist ⟨[(aliceNick, tokEx)], [], []⟩
      ⟨aliceNick, tokEx, [9], 5⟩ [7] [[1]] (by decide) (by decide)
      (by decide)).1,
   (register_ok_before_peerlist ⟨[(aliceNick, tokEx)], [], []⟩
      ⟨aliceNick, tokEx, [9], 5⟩ [7] [[1]] (by decide) (by decide)
      (by decide)).2.2 rfl rfl⟩

/-! ## Claim C9 — key-derivation determinism; KeyID width -/

def seedAA : List Nat := List.replicate 32 170

/-- A concrete instantiation of the abstract crypto primitives, used to
evaluate `DeriveKeys` on the spec's seed. -/
def derivePrimsEx : CryptoPrims :=
  ⟨fun s => s, fun k => k, fun s => (s, s), fun p => some p,
   fun _ => 7 :: List.replicate 31 0, fun k => some (k, k),
   fun p => some p⟩

/-- The `DerivedKeys` value produced from `seedAA` under
`derivePrimsEx`. -/
def dkEx : DerivedKeys :=
  ⟨seedAA, seedAA, seedAA, seedAA, seedAA, 7, seedAA, seedAA, seedAA⟩

/-- Claim C9, counterexample to the `8 bytes` part: at the claim's own
input (seed `0xAA` × 32) the derivation succeeds and the `KeyID` it
produces is one byte (`KeyID byte` in src/unnamed/part_001), not 8
bytes. -/
theorem deriveKeys_keyId_width_cex :
    DeriveKeys derivePrimsEx [] seedAA = some dkEx
  ∧ (keyIdBytes dkEx).length = 1
  ∧ ¬(keyIdBytes dkEx).length = 8 := by
  decide

/-- Claim C9, amended: `DeriveKeys` is deterministic — it reads nothing
but the seed, so two evaluations (under any ambient process states)
produce identical `DerivedKeys`, and on success the `KeyID` is a single
nonzero byte: the first byte of SHA-256 of the marshalled HPKE public
key, with `0` remapped to `1` — not an 8-byte fingerprint. -/
theorem deriveKeys_amended (C : CryptoPrims) (w1 w2 seed : List Nat) :
    DeriveKeys C w1 seed = DeriveKeys C w2 seed
  ∧ (∀ d, DeriveKeys C w1 seed = some d →
      (keyIdBytes d).length = 1
      ∧ d.keyId ≠ 0
      ∧ d.keyId = (if (C.sha256 d.hpkePubBytes).headD 0 = 0 then 1
          else (C.sha256 d.hpkePubBytes).headD 0)
      ∧ seed.length = SeedSize) := by
  refine ⟨rfl, ?_⟩
  intro d hd
  by_cases hs : seed.length ≠ SeedSize
  · simp only [DeriveKeys, if_pos hs] at hd
    exact Option.noConfusion hd
  · simp only [DeriveKeys, if_neg hs] at hd
    split at hd
    · exact Option.noConfusion hd
    · rename_i hpkeBytes hm
      split at hd
      · exact Option.noConfusion hd
      · rename_i lp hk
        split at hd
        · exact Option.noConfusion hd
        · rename_i pid hp
          rw [Option.some.injEq] at hd
          subst hd
          refine ⟨rfl, ?_, rfl, not_not.mp hs⟩
          intro hcon
          split at hcon <;> simp_all

theorem deriveKeys_amended_witness :
    DeriveKeys derivePrimsEx [] seedAA = DeriveKeys derivePrimsEx [9] seedAA
  ∧ ((keyIdBytes dkEx).length = 1
      ∧ dkEx.keyId ≠ 0
      ∧ dkEx.keyId
        = (if (derivePrimsEx.sha256 dkEx.hpkePubBytes).headD 0 = 0 then 1
            else (derivePrimsEx.sha256 dkEx.hpkePubBytes).headD 0)
      ∧ seedAA.length = SeedSize) :=
  ⟨(deriveKeys_amended derivePrimsEx [] [9] seedAA).1,
   (deriveKeys_amended derivePrimsEx [] [9] seedAA).2 dkEx (by decide)⟩

/-! ## Claim C10 — `GetSession` on an absent nickname -/

/-- Claim C10, counterexample for the legacy variant: with an empty
session map, `GetSession` of src/unnamed/part_007 calls the
`isAlive` of src/unnamed/part_004 on the `nil` session, which loads
`ps.dead` without a nil check — a nil-pointer dereference, not the
`(nil, false)` return the claim asserts for every pool. -/
theorem getSession_legacy_nil_panic_cex :
    GetSessionLegacy [] "bob" = .error .nilDeref
  ∧ GetSessionLegacy [] "bob" ≠ .ok (none, false) := by
  refine ⟨rfl, ?_⟩
  intro h
  exact Except.noConfusion h

/-- Claim C10, amended: in the current variant (src/pool.go with the
`isAlive` of src/peer.go, whose `ps != nil` guard protects the
dereference) `GetSession` on an absent nickname returns `(nil, false)`
without panicking, so the send path fails with an error; in the legacy
variant (src/unnamed/part_007 with the `isAlive` of src/unnamed/part_004,
which has no nil check) the same lookup panics with a nil dereference. -/
theorem getSession_absent_amended (sessions : List (String × SessionLive))
    (nick : String) (h : lookupA sessions nick = none) :
    GetSession sessions nick = (none, false)
  ∧ GetSessionLegacy sessions nick = .error .nilDeref := by
  constructor
  · simp [GetSession, h, isAlive]
  · simp [GetSessionLegacy, h, isAliveLegacy]

theorem getSession_absent_amended_witness :
    GetSession [("alice", ⟨false⟩)] "bob" = (none, false)
  ∧ GetSessionLegacy [("alice", ⟨false⟩)] "bob" = .error .nilDeref :=
  getSession_absent_amended [("alice", ⟨false⟩)] "bob" (by decide)

end Tmd
